import Mathlib

set_option maxRecDepth 16384

/-!
Verification of the daemon control plane and rendezvous subsystem of the
avolut/backup agent, as shallowly embedded from the Go sources.

Part 1: the backup run lock (internal/utils, `TryLock`/`Unlock`) together
with its callers (`runBackup` in main.go), modelled as a small-step
transition system over the threads that invoke a backup run concurrently
(cron scheduler goroutines, the signal-handler goroutine, a non-daemon
invocation).

The Go source of the lock is:

  var (backupLock sync.Mutex; isBackupRunning bool)

  func TryLock() (bool, error) \x7b
      backupLock.Lock()
      if isBackupRunning \x7b
          backupLock.Unlock()
          return false, nil
      \x7d
      isBackupRunning = true
      return true, nil            // NOTE: the mutex stays locked here
  \x7d

  func Unlock() \x7b
      isBackupRunning = false
      backupLock.Unlock()
  \x7d

A thread that runs a backup executes: TryLock; if false, log "already in
progress" and return; if true, run the backup, then (deferred) Unlock.
Each thread is at one of the following program points.
-/

/-- Program counter of one thread invoking `runBackup`:
`start` = about to call `backupLock.Lock()` inside `TryLock`;
`locked` = holds the mutex, about to test `isBackupRunning`;
`inRun` = `TryLock` returned `true` (mutex still held) and the backup body runs;
`doneRan` = `Unlock` executed, thread finished after performing a run;
`doneSkipped` = `TryLock` returned `false`, thread finished after logging
"Another backup is already in progress". -/
inductive PC where
  | start
  | locked
  | inRun
  | doneRan
  | doneSkipped
deriving DecidableEq, Repr

/-- Shared state of the process: `mu` = whether `backupLock` is held,
`running` = the `isBackupRunning` flag, plus the program counter of each
thread that invokes `runBackup`. -/
structure LState where
  mu : Bool
  running : Bool
  threads : List PC
deriving DecidableEq, Repr

/-- One atomic step of the thread at position `i` (given as the length of
the prefix `l`).  The four steps mirror the Go statements:
`lockAcq` = `backupLock.Lock()` completes (only possible while the mutex is
free: `sync.Mutex.Lock` blocks otherwise);
`testBusy` = reads `isBackupRunning = true`, unlocks, returns `false`;
`testFree` = reads `isBackupRunning = false`, sets it, returns `true`
without releasing the mutex (as in the source);
`unlock` = `Unlock()` at the end of the run: clears the flag and releases. -/
inductive LStep : Nat → LState → LState → Prop where
  | lockAcq (ru : Bool) (l r : List PC) :
      LStep l.length ⟨false, ru, l ++ PC.start :: r⟩ ⟨true, ru, l ++ PC.locked :: r⟩
  | testBusy (m : Bool) (l r : List PC) :
      LStep l.length ⟨m, true, l ++ PC.locked :: r⟩ ⟨false, true, l ++ PC.doneSkipped :: r⟩
  | testFree (m : Bool) (l r : List PC) :
      LStep l.length ⟨m, false, l ++ PC.locked :: r⟩ ⟨m, true, l ++ PC.inRun :: r⟩
  | unlock (m ru : Bool) (l r : List PC) :
      LStep l.length ⟨m, ru, l ++ PC.inRun :: r⟩ ⟨false, false, l ++ PC.doneRan :: r⟩

/-- Reachability by any interleaving of thread steps. -/
def Reach (s s' : LState) : Prop :=
  Relation.ReflTransGen (fun a b => ∃ i, LStep i a b) s s'

/-- Initial state: mutex free, flag clear, `n` threads about to call `TryLock`. -/
def initState (n : Nat) : LState :=
  ⟨false, false, List.replicate n PC.start⟩

/-- A thread is in the mutex-protected critical section. -/
def critP : PC → Bool := fun p => p == PC.locked || p == PC.inRun

/-- Inductive invariant of the lock system: the mutex is held by exactly
one critical thread; while `isBackupRunning` is set exactly one thread is
in the run body; and no thread has ever seen `TryLock` return `false`. -/
def LInv (s : LState) : Prop :=
  s.threads.countP critP = cond s.mu 1 0 ∧
  (s.running = true → s.threads.countP (· == PC.inRun) = 1) ∧
  s.threads.countP (· == PC.doneSkipped) = 0

/-!
Part 2: sequential model of `runBackup` (main.go) for the within-one-run
claims.  The lock outcome of `TryLock` as seen by a single caller is the
pair of its two `return` statements: `(false, nil)` when `isBackupRunning`
was observed set, `(true, nil)` otherwise.  The environment carries the
results of the fallible collaborators (config load, the two repository
connections, the per-item backup calls) and an optional panic point; the
deferred function releases the lock and recovers on every exit path.
-/

/-- The fields of `config.Config` that `runBackup` branches on: the job
name, the directories, and the databases (by their `Name`). -/
structure Config where
  name : String
  directories : List String
  databases : List String
deriving DecidableEq, Repr

/-- Environment of one `runBackup` call: results of the fallible calls it
makes.  `panicAfter = some k` means the run panics after `k` items were
attempted inside the backup loops. -/
structure RunEnv where
  config : Option Config
  fileRepoOk : Bool
  dbRepoOk : Bool
  dirOk : String → Bool
  dbOk : String → Bool
  panicAfter : Option Nat

inductive RunOutcome where
  | lockError
  | alreadyRunning
  | configError
  | fileRepoError
  | dbRepoError
  | panicked
  | completedOk
  | completedWithErrors
deriving DecidableEq, Repr

/-- Observable result of one `runBackup` call: its outcome, the items it
attempted to back up, and the value of `isBackupRunning` owed to this
caller after it returns. -/
structure RunResult where
  outcome : RunOutcome
  attempted : List String
  lockHeldAfter : Bool
deriving DecidableEq, Repr

/-- The value returned by `TryLock` given the observed `isBackupRunning`
flag: both return statements of the Go function carry a `nil` error. -/
def tryLockReturn (running : Bool) : Bool × Option String :=
  (!running, none)

/-- Sequential embedding of `runBackup` (main.go:73-171).  Mirrors the
source branch for branch: lock-error branch, already-running branch,
config-load error, the two repository connections, then the two
continue-on-error loops over directories and databases, with `hasErrors`
deciding the final report.  The deferred `Unlock` (with `recover`) makes
`lockHeldAfter = false` on every path after a successful acquisition,
including a panic. -/
def runBackup (running : Bool) (env : RunEnv) : RunResult :=
  match tryLockReturn running with
  | (_, some _) => ⟨.lockError, [], running⟩
  | (locked, none) =>
    if !locked then ⟨.alreadyRunning, [], running⟩
    else
      match env.config with
      | none => ⟨.configError, [], false⟩
      | some cfg =>
        if !env.fileRepoOk then ⟨.fileRepoError, [], false⟩
        else if !env.dbRepoOk then ⟨.dbRepoError, [], false⟩
        else
          match env.panicAfter with
          | some k => ⟨.panicked, (cfg.directories ++ cfg.databases).take k, false⟩
          | none =>
            let hasErrors := cfg.directories.any (fun d => !env.dirOk d) ||
                             cfg.databases.any (fun b => !env.dbOk b)
            ⟨if hasErrors then .completedWithErrors else .completedOk,
             cfg.directories ++ cfg.databases, false⟩

/-- Concrete run used to witness C8: two directories of which one fails,
one database that succeeds. -/
def envW : RunEnv :=
  ⟨some ⟨"app", ["d1", "d2"], ["b1"]⟩, true, true, fun d => d != "d1",
   fun _ => true, none⟩

/-!
Part 3: the shell server's key handling (internal/sshd/server.go).

`handlePublicKey` (lines 236-271) creates the `.avolut` directory, reads
and parses the private key file `.avolut/priv.key`, and accepts exactly
when `bytes.Equal(key.Marshal(), privKey.PublicKey().Marshal())`.

`loadOrGenerateHostKey` (lines 273-302) creates `s.hostKeyDir` but then
reads/writes the path `filepath.Join(".avolut", "priv.key")` — the
parameter plays no role in the path.

`uploadPrivateKey` (lines 331-373) unconditionally generates a fresh key,
writes it to `filepath.Join(".avolut", "priv.key")` and uploads the same
bytes to the object store.

Keys are modelled by their byte strings; a parsed private key is carried
together with the marshalled bytes of its derived public key.  The local
disk is an association list from paths to byte strings.
-/

/-- A parsed SSH private key: `pubMarshal` stands for
`PublicKey().Marshal()` of the parsed key. -/
structure SSHPrivKey where
  pubMarshal : List Nat
deriving DecidableEq, Repr

/-- `filepath.Join` for the clean relative components used here. -/
def joinPath (a b : String) : String := a ++ "/" ++ b

/-- The path `loadOrGenerateHostKey` actually uses
(`filepath.Join(".avolut", "priv.key")`, server.go:279); the `hostKeyDir`
field is only used for the `MkdirAll` call, never for the path. -/
def hostKeyPath (hostKeyDir : String) : String := joinPath ".avolut" "priv.key"

/-- The path `uploadPrivateKey` persists the Credential to
(`filepath.Join(keyDir, "priv.key")` with `keyDir := ".avolut"`,
server.go:345). -/
def credKeyPath : String := joinPath ".avolut" "priv.key"

/-- The path `handlePublicKey` reads the Credential from (server.go:249). -/
def authKeyPath : String := joinPath ".avolut" "priv.key"

/-- Local disk: association list from paths to file contents. -/
def Files := List (String × List Nat)

def getFile (fs : Files) (p : String) : Option (List Nat) :=
  (List.find? (fun e => e.1 == p) fs).map (·.2)

def setFile (fs : Files) (p : String) (v : List Nat) : Files :=
  (p, v) :: List.filter (fun e => e.1 != p) fs

/-- `handlePublicKey` (server.go:236-271): reject on directory-creation
failure, on read failure, on parse failure; otherwise accept iff the
offered key's marshalled bytes equal the marshalled public key derived
from the stored private key. -/
def handlePublicKey (mkdirOk : Bool) (fs : Files)
    (parsePriv : List Nat → Option SSHPrivKey) (offeredMarshal : List Nat) :
    Bool :=
  if !mkdirOk then false
  else
    match getFile fs authKeyPath with
    | none => false
    | some bs =>
      match parsePriv bs with
      | none => false
      | some pk => offeredMarshal == pk.pubMarshal

/-- `loadOrGenerateHostKey` (server.go:273-302): load the file at the
(hard-coded) host-key path and parse it; on any failure generate a fresh
key, persist it there, and return it.  Result: the disk afterwards and the
key bytes in use. -/
def loadOrGenerateHostKey (hostKeyDir : String) (fs : Files)
    (parsesOk : List Nat → Bool) (fresh : List Nat) : Files × List Nat :=
  match getFile fs (hostKeyPath hostKeyDir) with
  | some data => if parsesOk data then (fs, data)
                 else (setFile fs (hostKeyPath hostKeyDir) fresh, fresh)
  | none => (setFile fs (hostKeyPath hostKeyDir) fresh, fresh)

/-- `uploadPrivateKey` (server.go:331-373): always generates a fresh key
(`generateHostKey()` with no existence check), saves it at the Credential
path and uploads the same bytes.  Result: the disk afterwards and the
uploaded bytes. -/
def uploadPrivateKey (fs : Files) (fresh : List Nat) : Files × List Nat :=
  (setFile fs credKeyPath fresh, fresh)

/-!
Part 4: the rendezvous client `ConnectToHost` (internal/utils/ip.go,
lines 186-262).  Order of operations in the source: connect to the store,
fetch `ips.json`, parse it, reject if `time.Since(ipInfo.Timestamp) >
time.Hour`, fetch `priv.key`, parse it, then for each interface's
addresses probe port 41334 with a timeout and attempt the SSH handshake,
returning on the first success;  after exhaustion the last error (if any)
is propagated, otherwise "no available hosts".  Times are in nanoseconds
(Go `time.Duration`); the trace records whether the credential blob was
fetched and which addresses were probed, to witness ordering. -/

/-- `time.Hour` in nanoseconds. -/
def hourNs : Int := 3600 * 1000000000

/-- One second in nanoseconds. -/
def secondNs : Int := 1000000000

/-- The published `IPInfo` document (ip.go:20-24); the `interfaces` map is
listed in its (implementation-defined) iteration order. -/
structure IPInfo where
  hostname : String
  timestamp : Int
  interfaces : List (String × List String)
deriving DecidableEq, Repr

inductive ConnectOutcome where
  | fetchSnapshotError
  | parseSnapshotError
  | staleSnapshot
  | fetchKeyError
  | parseKeyError
  | connected (ip : String)
  | failedToConnect (msg : String)
  | noHosts
deriving DecidableEq, Repr

/-- Observable trace of one `ConnectToHost` call. -/
structure ConnectTrace where
  outcome : ConnectOutcome
  credFetched : Bool
  probed : List String
deriving DecidableEq, Repr

/-- Candidate addresses in iteration order (ip.go:240-241). -/
def candidateIPs (info : IPInfo) : List String :=
  (info.interfaces.map Prod.snd).flatten

/-- The candidate loop (ip.go:239-256): probe the port, then try the SSH
handshake, remembering the last error; first success returns. -/
def tryIPs (portOpen sshOk : String → Bool) :
    List String → Option String → List String → ConnectTrace
  | [], lastErr, probed =>
    match lastErr with
    | some msg => ⟨.failedToConnect msg, true, probed.reverse⟩
    | none => ⟨.noHosts, true, probed.reverse⟩
  | ip :: rest, lastErr, probed =>
    if !portOpen ip then
      tryIPs portOpen sshOk rest (some ("port 41334 is not open on " ++ ip)) (ip :: probed)
    else if !sshOk ip then
      tryIPs portOpen sshOk rest (some ("SSH connection failed to " ++ ip)) (ip :: probed)
    else ⟨.connected ip, true, (ip :: probed).reverse⟩

/-- `ConnectToHost` (ip.go:186-262).  `snapFetchOk`/`snapParsed` are the
results of fetching and JSON-decoding `ips.json`; `credFetchOk`/
`credParseOk` those of fetching and parsing `priv.key`; `portOpen` and
`sshOk` the results of `isPortOpen` and `trySSHConnection` per address. -/
def ConnectToHost (now : Int) (snapFetchOk : Bool) (snapParsed : Option IPInfo)
    (credFetchOk credParseOk : Bool) (portOpen sshOk : String → Bool) :
    ConnectTrace :=
  if !snapFetchOk then ⟨.fetchSnapshotError, false, []⟩
  else
    match snapParsed with
    | none => ⟨.parseSnapshotError, false, []⟩
    | some info =>
      if now - info.timestamp > hourNs then ⟨.staleSnapshot, false, []⟩
      else if !credFetchOk then ⟨.fetchKeyError, true, []⟩
      else if !credParseOk then ⟨.parseKeyError, true, []⟩
      else tryIPs portOpen sshOk (candidateIPs info) none []

/-!
Part 5: the non-daemon invocation path (main.go:373-402).  The program
reads `.avolut/daemon.pid`; on success it parses the trimmed content with
`strconv.Atoi`; `os.FindProcess` always succeeds on Unix; it then sends
signal 0 as a liveness probe.  If the probe succeeds it attempts to send
SIGUSR1: on success it logs and returns; on failure it falls through.  In
every fall-through case (unreadable file, unparsable pid, failed probe,
failed SIGUSR1) the PID file is removed and the backup is performed in the
calling process.  The result records every signal attempted, with signal
number 0 for the probe and 10 for SIGUSR1.  File contents are modelled as
character lists so that trimming and `Atoi` are computed, not assumed. -/

/-- `syscall.SIGUSR1` on Linux. -/
def SIGUSR1 : Nat := 10

/-- Observable effects of the non-daemon trigger path: the signals
attempted (pid, signal number) in order, whether the PID file was removed,
and whether the backup was performed in the calling process. -/
structure TriggerResult where
  signalsSent : List (Int × Nat)
  pidFileRemoved : Bool
  ranInProcess : Bool
deriving DecidableEq, Repr

/-- `strings.TrimSpace` on a character list (leading and trailing
whitespace removed). -/
def trimChars (l : List Char) : List Char :=
  ((l.dropWhile Char.isWhitespace).reverse.dropWhile Char.isWhitespace).reverse

def parseDigits : List Char → Nat → Option Nat
  | [], acc => some acc
  | c :: rest, acc =>
    if c.isDigit then parseDigits rest (acc * 10 + (c.toNat - 48)) else none

/-- `strconv.Atoi`: optional sign followed by at least one decimal digit. -/
def atoiChars (s : List Char) : Option Int :=
  match s with
  | [] => none
  | '+' :: rest =>
    if rest = [] then none else (parseDigits rest 0).map (fun n => (n : Int))
  | '-' :: rest =>
    if rest = [] then none else (parseDigits rest 0).map (fun n => -(n : Int))
  | _ => (parseDigits s 0).map (fun n => (n : Int))

/-- The non-daemon path of `main` (main.go:373-402).  `pidFileContent` is
the result of reading `.avolut/daemon.pid`; `probeOk` is whether
`proc.Signal(syscall.Signal(0))` returns nil; `sigOk` whether
`proc.Signal(syscall.SIGUSR1)` returns nil. -/
def nonDaemonTrigger (pidFileContent : Option (List Char)) (probeOk sigOk : Bool) :
    TriggerResult :=
  match pidFileContent with
  | none => ⟨[], false, true⟩
  | some s =>
    match atoiChars (trimChars s) with
    | none => ⟨[], true, true⟩
    | some pid =>
      if probeOk then
        if sigOk then ⟨[(pid, 0), (pid, SIGUSR1)], false, false⟩
        else ⟨[(pid, 0), (pid, SIGUSR1)], true, true⟩
      else ⟨[(pid, 0)], true, true⟩

/-!
Part 6: `ensureSSHKey` (main.go:23-71), runs at every program start.  If
`authorized_keys` exists it is scanned line by line with `bufio.Scanner`
(lines split at a newline byte; the final line needs no terminator); if
some line trimmed of surrounding whitespace equals the hard-coded
`sshPublicKey` the function returns with the file untouched.  Otherwise
the key followed by a newline byte is APPENDED to the raw file content
(`O_APPEND`).  File contents are modelled as character lists so the line
structure is computed, not assumed.  (The scanner also strips one trailing
carriage return per line; since `strings.TrimSpace` removes it anyway this
is absorbed by the trim in the comparison.) -/

/-- The hard-coded public key constant `sshPublicKey` of main.go. -/
def sshPublicKey : String := "ssh-rsa AAAAB3NzaC1yc2EAAAADAQABAAABgQCsYAYgSboQUjnSB/MEJjsi4UfMqKkILEx+Wzoqr7hETSrhvdnO0KyP9q2PXPaV2sf90cqP929+60jNGYvvsTBaSIaFpDDhfLMSiMuaqoDd/zV3BxJ9gLxIQ3F7UQwnvHbZKXpRuO969UihJSK2z43RxorZG8ruqNZEvQcfnLbBlqJXZHm3Sj7hc11ziBrPabRtrS66Ksvpfrs5X49tK/b6YX4VZqEXJSUihbv6Ss5O+Aovl+B0/Ok3vI7PGnbUjaIh4HcZy0KlATJSBwmAkDkfBVhkbHtiQ+H4MpdV2OMkG/j07VSaUBsGlnBQF7i0OdULHh0sn1aBvUrmf0FV4c6FYODPcWQBh+0e58PDwV7emjvr+DJBfahX2xq+H1Ah5OHcyGM/sY86w6Ua0yg7X/80XtV2rCzeu1jW5/OEcmSz/MXGmk6RYEOhAMNy9aXHK3i9KOPJG5GOH3WsPfSzNbw0nX7rguVvP7WUWiFYvxZHpdl3QsWIPuvjbwTH+vUDdxc= avolut@backup"

def keyChars : List Char := sshPublicKey.data

/-- The lines `bufio.Scanner` yields from a raw content: maximal segments
between newline bytes; a final segment without terminator is still a line;
the empty content has no lines. -/
def splitLines : List Char → List (List Char)
  | [] => []
  | c :: rest =>
    if c = '\n' then [] :: splitLines rest
    else
      match splitLines rest with
      | [] => [[c]]
      | l :: ls => (c :: l) :: ls

/-- `ensureSSHKey` as a function of the `authorized_keys` state:
`fileExists` is the `os.Stat` outcome, `content` the raw file content.
Returns the content after the call. -/
def ensureSSHKey (fileExists : Bool) (content : List Char) : List Char :=
  if fileExists && (splitLines content).any (fun l => trimChars l == keyChars) then
    content
  else
    content ++ keyChars ++ ['\n']

/-!
Theorems.  First the helper lemmas about the lock transition system, then
one theorem per claim (with witnesses and counterexamples where needed).
-/

theorem countP_mid_true (pred : PC → Bool) (l r : List PC) (p : PC)
    (hp : pred p = true) :
    (l ++ p :: r).countP pred = l.countP pred + r.countP pred + 1 := by
  simp [List.countP_append, List.countP_cons, hp]
  omega

theorem countP_mid_false (pred : PC → Bool) (l r : List PC) (p : PC)
    (hp : pred p = false) :
    (l ++ p :: r).countP pred = l.countP pred + r.countP pred := by
  simp [List.countP_append, List.countP_cons, hp]

theorem countP_le_of_imp (p q : PC → Bool) (h : ∀ a, p a = true → q a = true)
    (l : List PC) : l.countP p ≤ l.countP q := by
  induction l with
  | nil => simp
  | cons a t ih =>
    rw [List.countP_cons, List.countP_cons]
    cases hpa : p a
    · cases hqa : q a <;> simp [hpa, hqa] <;> omega
    · cases hqa : q a
      · exact absurd (h a hpa) (by simp [hqa])
      · simp [hpa, hqa]
        omega

theorem inRun_le_crit (l : List PC) :
    l.countP (· == PC.inRun) ≤ l.countP critP := by
  refine countP_le_of_imp _ _ (fun a ha => ?_) l
  cases a <;> first | rfl | exact absurd ha (by decide)

theorem countP_replicate (pred : PC → Bool) (n : Nat) (a : PC) :
    (List.replicate n a).countP pred = cond (pred a) n 0 := by
  induction n with
  | zero => cases pred a <;> rfl
  | succ k ih =>
    rw [List.replicate_succ, List.countP_cons, ih]
    cases hpa : pred a <;> simp [hpa]

theorem linv_init (n : Nat) : LInv (initState n) := by
  refine ⟨?_, ?_, ?_⟩
  · show (List.replicate n PC.start).countP critP = cond false 1 0
    rw [countP_replicate]
    rfl
  · intro h
    exact absurd h (by simp [initState])
  · show (List.replicate n PC.start).countP (· == PC.doneSkipped) = 0
    rw [countP_replicate]
    rfl

theorem linv_step {i : Nat} {s s' : LState} (h : LStep i s s') (hs : LInv s) :
    LInv s' := by
  obtain ⟨hA, hB, hC⟩ := hs
  cases h with
  | lockAcq ru l r =>
    rw [show (⟨false, ru, l ++ PC.start :: r⟩ : LState).threads = l ++ PC.start :: r from rfl,
      countP_mid_false critP l r PC.start rfl] at hA
    have hA0 : l.countP critP + r.countP critP = 0 := hA
    refine ⟨?_, ?_, ?_⟩
    · show (l ++ PC.locked :: r).countP critP = 1
      rw [countP_mid_true critP l r PC.locked rfl]
      omega
    · intro hru
      have hB' := hB hru
      rw [show (⟨false, ru, l ++ PC.start :: r⟩ : LState).threads = l ++ PC.start :: r from rfl,
        countP_mid_false _ l r PC.start rfl] at hB'
      show (l ++ PC.locked :: r).countP (· == PC.inRun) = 1
      rw [countP_mid_false _ l r PC.locked rfl]
      exact hB'
    · rw [show (⟨false, ru, l ++ PC.start :: r⟩ : LState).threads = l ++ PC.start :: r from rfl,
        countP_mid_false _ l r PC.start rfl] at hC
      show (l ++ PC.locked :: r).countP (· == PC.doneSkipped) = 0
      rw [countP_mid_false _ l r PC.locked rfl]
      exact hC
  | testBusy m l r =>
    exfalso
    rw [show (⟨m, true, l ++ PC.locked :: r⟩ : LState).threads = l ++ PC.locked :: r from rfl,
      countP_mid_true critP l r PC.locked rfl] at hA
    have hB' := hB rfl
    rw [show (⟨m, true, l ++ PC.locked :: r⟩ : LState).threads = l ++ PC.locked :: r from rfl,
      countP_mid_false _ l r PC.locked rfl] at hB'
    have h1 := inRun_le_crit l
    have h2 := inRun_le_crit r
    cases m
    · have hA0 : l.countP critP + r.countP critP + 1 = 0 := hA
      omega
    · have hA0 : l.countP critP + r.countP critP + 1 = 1 := hA
      omega
  | testFree m l r =>
    rw [show (⟨m, false, l ++ PC.locked :: r⟩ : LState).threads = l ++ PC.locked :: r from rfl,
      countP_mid_true critP l r PC.locked rfl] at hA
    have h1 := inRun_le_crit l
    have h2 := inRun_le_crit r
    cases m
    · exfalso
      have hA0 : l.countP critP + r.countP critP + 1 = 0 := hA
      omega
    · have hA0 : l.countP critP + r.countP critP + 1 = 1 := hA
      refine ⟨?_, ?_, ?_⟩
      · show (l ++ PC.inRun :: r).countP critP = 1
        rw [countP_mid_true critP l r PC.inRun rfl]
        omega
      · intro _
        show (l ++ PC.inRun :: r).countP (· == PC.inRun) = 1
        rw [countP_mid_true _ l r PC.inRun rfl]
        omega
      · rw [show (⟨true, false, l ++ PC.locked :: r⟩ : LState).threads = l ++ PC.locked :: r from rfl,
          countP_mid_false _ l r PC.locked rfl] at hC
        show (l ++ PC.inRun :: r).countP (· == PC.doneSkipped) = 0
        rw [countP_mid_false _ l r PC.inRun rfl]
        exact hC
  | unlock m ru l r =>
    rw [show (⟨m, ru, l ++ PC.inRun :: r⟩ : LState).threads = l ++ PC.inRun :: r from rfl,
      countP_mid_true critP l r PC.inRun rfl] at hA
    refine ⟨?_, ?_, ?_⟩
    · show (l ++ PC.doneRan :: r).countP critP = 0
      rw [countP_mid_false critP l r PC.doneRan rfl]
      cases m
      · have hA0 : l.countP critP + r.countP critP + 1 = 0 := hA
        omega
      · have hA0 : l.countP critP + r.countP critP + 1 = 1 := hA
        omega
    · intro h
      exact absurd h (by simp)
    · rw [show (⟨m, ru, l ++ PC.inRun :: r⟩ : LState).threads = l ++ PC.inRun :: r from rfl,
        countP_mid_false _ l r PC.inRun rfl] at hC
      show (l ++ PC.doneRan :: r).countP (· == PC.doneSkipped) = 0
      rw [countP_mid_false _ l r PC.doneRan rfl]
      exact hC

theorem reach_linv {n : Nat} {s : LState} (h : Reach (initState n) s) : LInv s := by
  induction h with
  | refl => exact linv_init n
  | tail _ hstep ih =>
    obtain ⟨i, hs⟩ := hstep
    exact linv_step hs ih

theorem getElem?_mid (l r : List PC) (p : PC) : (l ++ p :: r)[l.length]? = some p := by
  induction l with
  | nil => simp
  | cons a t ih => simpa using ih

/-- While the mutex is held, a thread that is calling `TryLock` (at `start`)
cannot take any step: `backupLock.Lock()` blocks. -/
theorem start_blocked {i : Nat} {s s' : LState} (hmu : s.mu = true)
    (hpc : s.threads[i]? = some PC.start) : ¬ LStep i s s' := by
  intro h
  cases h with
  | lockAcq ru l r => simp_all
  | testBusy m l r => rw [getElem?_mid] at hpc; simp_all
  | testFree m l r => rw [getElem?_mid] at hpc; simp_all
  | unlock m ru l r => rw [getElem?_mid] at hpc; simp_all

/-- Claim C1 (settled against the code): with two trigger sources, a
trigger that arrives while a run is in progress does NOT observe an
"already running" outcome.  The trace below reaches a state where thread 0
is mid-run and thread 1 has invoked `TryLock`; thread 1 is blocked (no
step is enabled for it), and the system can continue to a state where
thread 1 itself performs a second (serialized) run.  Moreover in every
reachable state no thread ever finishes with the "already running"
outcome, while at most one run executes at any time (that half of the
claim holds). -/
theorem c1_trigger_during_run_blocks_then_runs :
    Reach (initState 2) ⟨true, true, [PC.inRun, PC.start]⟩ ∧
    (∀ s', ¬ LStep 1 ⟨true, true, [PC.inRun, PC.start]⟩ s') ∧
    Reach ⟨true, true, [PC.inRun, PC.start]⟩ ⟨true, true, [PC.doneRan, PC.inRun]⟩ ∧
    (∀ s, Reach (initState 2) s → s.threads.countP (· == PC.doneSkipped) = 0) ∧
    (∀ n s, Reach (initState n) s → s.threads.countP (· == PC.inRun) ≤ 1) := by
  refine ⟨?_, ?_, ?_, ?_, ?_⟩
  · exact Relation.ReflTransGen.head ⟨0, LStep.lockAcq false [] [PC.start]⟩
      (Relation.ReflTransGen.head ⟨0, LStep.testFree true [] [PC.start]⟩
        Relation.ReflTransGen.refl)
  · exact fun s' => start_blocked rfl (by simp)
  · exact Relation.ReflTransGen.head ⟨0, LStep.unlock true true [] [PC.start]⟩
      (Relation.ReflTransGen.head ⟨1, LStep.lockAcq false [PC.doneRan] []⟩
        (Relation.ReflTransGen.head ⟨1, LStep.testFree true [PC.doneRan] []⟩
          Relation.ReflTransGen.refl))
  · exact fun s h => (reach_linv h).2.2
  · intro n s h
    have h1 := (reach_linv h).1
    have h2 := inRun_le_crit s.threads
    cases hm : s.mu
    · rw [hm] at h1
      have h3 : s.threads.countP critP = 0 := h1
      omega
    · rw [hm] at h1
      have h3 : s.threads.countP critP = 1 := h1
      omega

/-- Claim C2 (settled against the code): `TryLock` is not a non-blocking
test-and-set.  A caller that invokes `TryLock` while a run is in progress
has no enabled step (it waits on `backupLock.Lock()`, which the running
backup holds for its whole duration); once the run's `Unlock` executes the
caller acquires the mutex, observes `isBackupRunning = false`, returns
`true`, and performs the run it was supposed to skip.  `TryLock` never
returns `false` in any reachable execution. -/
theorem c2_trylock_blocks_until_release :
    (∀ s', ¬ LStep 1 ⟨true, true, [PC.inRun, PC.start]⟩ s') ∧
    Reach ⟨true, true, [PC.inRun, PC.start]⟩ ⟨true, false, [PC.doneRan, PC.locked]⟩ ∧
    LStep 1 ⟨true, false, [PC.doneRan, PC.locked]⟩ ⟨true, true, [PC.doneRan, PC.inRun]⟩ ∧
    (∀ n s, Reach (initState n) s → s.threads.countP (· == PC.doneSkipped) = 0) := by
  refine ⟨?_, ?_, ?_, ?_⟩
  · exact fun s' => start_blocked rfl (by simp)
  · exact Relation.ReflTransGen.head ⟨0, LStep.unlock true true [] [PC.start]⟩
      (Relation.ReflTransGen.head ⟨1, LStep.lockAcq false [PC.doneRan] []⟩
        Relation.ReflTransGen.refl)
  · exact LStep.testFree true [PC.doneRan] []
  · exact fun n s h => (reach_linv h).2.2

theorem runBackup_lock_released (env : RunEnv) :
    (runBackup false env).lockHeldAfter = false := by
  rcases hc : env.config with _ | cfg <;>
    rcases hp : env.panicAfter with _ | k <;>
      cases hf : env.fileRepoOk <;> cases hd : env.dbRepoOk <;>
        simp [runBackup, tryLockReturn, hc, hp, hf, hd]

/-- Claim C8: within one run, a single item's failure does not abort the
run (every item of the configuration is still attempted), the lock is
released on every exit path of the run (early returns, panics, normal
completion), and the run reports "completed with errors" exactly when at
least one item failed. -/
theorem c8_continue_on_error (env : RunEnv) (cfg : Config)
    (hc : env.config = some cfg) (hf : env.fileRepoOk = true)
    (hd : env.dbRepoOk = true) :
    (∀ env' : RunEnv, (runBackup false env').lockHeldAfter = false) ∧
    (env.panicAfter = none →
      (runBackup false env).attempted = cfg.directories ++ cfg.databases) ∧
    (env.panicAfter = none →
      ((runBackup false env).outcome = RunOutcome.completedWithErrors ↔
        (cfg.directories.any (fun d => !env.dirOk d) ||
         cfg.databases.any (fun b => !env.dbOk b)) = true)) := by
  refine ⟨runBackup_lock_released, ?_, ?_⟩
  · intro hp
    simp [runBackup, tryLockReturn, hc, hf, hd, hp]
  · intro hp
    simp only [runBackup, tryLockReturn, hc, hf, hd, hp]
    constructor
    · intro h
      by_contra hne
      rw [Bool.not_eq_true] at hne
      simp [hne] at h
    · intro h
      simp [h]

theorem c8_witness :
    (runBackup false envW).lockHeldAfter = false ∧
    (runBackup false envW).attempted = ["d1", "d2", "b1"] ∧
    (runBackup false envW).outcome = RunOutcome.completedWithErrors := by
  obtain ⟨h1, h2, h3⟩ := c8_continue_on_error envW ⟨"app", ["d1", "d2"], ["b1"]⟩ rfl rfl rfl
  refine ⟨h1 envW, ?_, (h3 rfl).mpr (by decide)⟩
  rw [h2 rfl]
  rfl

/-- Claim C9: both return statements of `TryLock` carry a `nil` error, so
the "Error acquiring lock" branch of `runBackup` is unreachable. -/
theorem c9_trylock_never_errors :
    (∀ running, (tryLockReturn running).2 = none) ∧
    (∀ running env, (runBackup running env).outcome ≠ RunOutcome.lockError) := by
  constructor
  · intro running
    rfl
  · intro running env
    cases running
    · rcases hc : env.config with _ | cfg <;>
        rcases hp : env.panicAfter with _ | k <;>
          cases hf : env.fileRepoOk <;> cases hd : env.dbRepoOk <;>
            simp [runBackup, tryLockReturn, hc, hp, hf, hd] <;>
              split <;> simp
    · simp [runBackup, tryLockReturn]

theorem getFile_setFile (fs : Files) (p : String) (v : List Nat) :
    getFile (setFile fs p v) p = some v := by
  simp [getFile, setFile, List.find?]

/-- Claim C3: with the stored Credential readable and parseable, the shell
server accepts a connecting party iff the offered public key's marshalled
bytes are byte-identical to the marshalled public key derived from the
stored private key; every other offered key is rejected. -/
theorem c3_accept_iff_credential_match (fs : Files) (bs : List Nat)
    (parsePriv : List Nat → Option SSHPrivKey) (pk : SSHPrivKey)
    (offered : List Nat) (hread : getFile fs authKeyPath = some bs)
    (hparse : parsePriv bs = some pk) :
    handlePublicKey true fs parsePriv offered = true ↔
      offered = pk.pubMarshal := by
  simp [handlePublicKey, hread, hparse]

theorem c3_witness :
    handlePublicKey true [(authKeyPath, [1, 2, 3])]
      (fun _ => some ⟨[5, 6]⟩) [5, 6] = true ∧
    handlePublicKey true [(authKeyPath, [1, 2, 3])]
      (fun _ => some ⟨[5, 6]⟩) [5, 7] ≠ true := by
  constructor
  · exact (c3_accept_iff_credential_match [(authKeyPath, [1, 2, 3])] [1, 2, 3]
      (fun _ => some ⟨[5, 6]⟩) ⟨[5, 6]⟩ [5, 6] (by decide) rfl).mpr rfl
  · intro h
    exact absurd ((c3_accept_iff_credential_match [(authKeyPath, [1, 2, 3])] [1, 2, 3]
      (fun _ => some ⟨[5, 6]⟩) ⟨[5, 6]⟩ [5, 7] (by decide) rfl).mp h) (by decide)

/-- Claim C5 (settled against the code): the transport host key and the
Credential live at the SAME path `.avolut/priv.key`.  With a Credential of
bytes `[1,2,3]` on disk, loading the host key returns the Credential's
bytes, and persisting a fresh Credential `[9]` overwrites the file the
host-key loader uses. -/
theorem c5_host_key_and_credential_share_one_file :
    hostKeyPath ".avolut/ssh" = credKeyPath ∧
    credKeyPath = authKeyPath ∧
    (loadOrGenerateHostKey ".avolut/ssh" [(credKeyPath, [1, 2, 3])]
      (fun _ => true) [7]).2 = [1, 2, 3] ∧
    getFile (uploadPrivateKey [(hostKeyPath ".avolut/ssh", [1, 2, 3])] [9]).1
      (hostKeyPath ".avolut/ssh") = some [9] := by
  refine ⟨rfl, rfl, by decide, by decide⟩

/-- Claim C6 counterexample: a local Credential `[1,2,3]` exists, yet the
publish step (`uploadPrivateKey`) changes the persisted private-key bytes
to the freshly generated `[7,8]`. -/
theorem c6_counterexample :
    getFile (uploadPrivateKey [(credKeyPath, [1, 2, 3])] [7, 8]).1 credKeyPath
      ≠ some [1, 2, 3] := by
  decide

/-- Claim C6 amended: `uploadPrivateKey` unconditionally generates a fresh
key pair on every daemon startup and persists and uploads it, overwriting
any existing local Credential. -/
theorem c6_always_regenerates (fs : Files) (fresh : List Nat) :
    getFile (uploadPrivateKey fs fresh).1 credKeyPath = some fresh ∧
    (uploadPrivateKey fs fresh).2 = fresh :=
  ⟨getFile_setFile fs credKeyPath fresh, rfl⟩

theorem tryIPs_credFetched (portOpen sshOk : String → Bool) (ips : List String)
    (lastErr : Option String) (probed : List String) :
    (tryIPs portOpen sshOk ips lastErr probed).credFetched = true := by
  induction ips generalizing lastErr probed with
  | nil => cases lastErr <;> rfl
  | cons ip rest ih =>
    rw [tryIPs]
    split
    · exact ih _ _
    · split
      · exact ih _ _
      · rfl

theorem tryIPs_not_stale (portOpen sshOk : String → Bool) (ips : List String)
    (lastErr : Option String) (probed : List String) :
    (tryIPs portOpen sshOk ips lastErr probed).outcome ≠ ConnectOutcome.staleSnapshot := by
  induction ips generalizing lastErr probed with
  | nil => cases lastErr <;> simp [tryIPs]
  | cons ip rest ih =>
    rw [tryIPs]
    split
    · exact ih _ _
    · split
      · exact ih _ _
      · simp

theorem tryIPs_all_closed (portOpen sshOk : String → Bool)
    (hclosed : ∀ ip, portOpen ip = false) (ips : List String)
    (lastErr : Option String) (probed : List String) :
    (tryIPs portOpen sshOk ips lastErr probed).probed = probed.reverse ++ ips := by
  induction ips generalizing lastErr probed with
  | nil => cases lastErr <;> simp [tryIPs]
  | cons ip rest ih =>
    rw [tryIPs]
    rw [if_pos (by rw [hclosed ip]; rfl)]
    rw [ih _ _]
    simp

/-- Claim C4: a snapshot older than one hour is rejected as stale before
the credential is fetched and before any address is probed; a snapshot
captured one second ago passes the freshness check (the credential fetch
and — when the credential is usable — the candidate probing proceed). -/
theorem c4_freshness_window (now : Int) (info : IPInfo)
    (credFetchOk credParseOk : Bool) (portOpen sshOk : String → Bool) :
    (now - info.timestamp > hourNs →
      ConnectToHost now true (some info) credFetchOk credParseOk portOpen sshOk =
        ⟨.staleSnapshot, false, []⟩) ∧
    (now - info.timestamp = secondNs →
      (ConnectToHost now true (some info) credFetchOk credParseOk portOpen sshOk).outcome ≠
          ConnectOutcome.staleSnapshot ∧
      (ConnectToHost now true (some info) credFetchOk credParseOk portOpen sshOk).credFetched =
          true) ∧
    (now - info.timestamp = secondNs → credFetchOk = true → credParseOk = true →
      (∀ ip, portOpen ip = false) →
      (ConnectToHost now true (some info) credFetchOk credParseOk portOpen sshOk).probed =
        candidateIPs info) := by
  have hfresh : now - info.timestamp = secondNs → ¬ (now - info.timestamp > hourNs) := by
    intro h
    rw [h]
    decide
  refine ⟨?_, ?_, ?_⟩
  · intro h
    simp [ConnectToHost, h]
  · intro h
    rw [ConnectToHost]
    rw [if_neg (by simp)]
    rw [if_neg (hfresh h)]
    constructor
    · cases credFetchOk
      · simp
      · cases credParseOk
        · simp
        · simpa using tryIPs_not_stale portOpen sshOk (candidateIPs info) none []
    · cases credFetchOk
      · rfl
      · cases credParseOk
        · rfl
        · simpa using tryIPs_credFetched portOpen sshOk (candidateIPs info) none []
  · intro h hcf hcp hclosed
    rw [ConnectToHost]
    rw [if_neg (by simp)]
    rw [if_neg (hfresh h)]
    rw [hcf, hcp]
    rw [if_neg (by simp), if_neg (by simp)]
    simpa using tryIPs_all_closed portOpen sshOk hclosed (candidateIPs info) none []

theorem c4_witness :
    ConnectToHost (hourNs + 1) true (some ⟨"h", 0, [("eth0", ["10.0.0.5"])]⟩)
      true true (fun _ => false) (fun _ => false) =
        ⟨.staleSnapshot, false, []⟩ ∧
    (ConnectToHost secondNs true (some ⟨"h", 0, [("eth0", ["10.0.0.5"])]⟩)
      true true (fun _ => false) (fun _ => false)).probed = ["10.0.0.5"] := by
  constructor
  · exact (c4_freshness_window (hourNs + 1) ⟨"h", 0, [("eth0", ["10.0.0.5"])]⟩
      true true (fun _ => false) (fun _ => false)).1 (by decide)
  · exact (c4_freshness_window secondNs ⟨"h", 0, [("eth0", ["10.0.0.5"])]⟩
      true true (fun _ => false) (fun _ => false)).2.2 (by decide) rfl rfl (fun _ => rfl)

/-- Claim C7 counterexample: the PID file names process 1234, the liveness
probe succeeds, but the SIGUSR1 delivery fails (e.g. the daemon exited
between the two signals) — the program then removes the PID file and runs
the backup in-process, instead of "returning immediately without running a
backup in-process" as the claim states for every probe success. -/
theorem c7_counterexample :
    (nonDaemonTrigger (some ['1', '2', '3', '4']) true false).ranInProcess = true ∧
    (nonDaemonTrigger (some ['1', '2', '3', '4']) true false).pidFileRemoved = true := by
  constructor <;> decide

/-- Claim C7 amended: when the probe AND the SIGUSR1 delivery succeed, the
trigger is delivered and the program returns without running a backup
in-process and without touching the PID file; when the liveness probe
fails, the only signal ever sent to the dead PID is the single probe (no
SIGUSR1, regardless of whether a later delivery would succeed), the stale
PID file is removed, and the backup runs in the calling process. -/
theorem c7_trigger_or_local_run (s : List Char) (pid : Int)
    (hparse : atoiChars (trimChars s) = some pid) :
    nonDaemonTrigger (some s) true true = ⟨[(pid, 0), (pid, SIGUSR1)], false, false⟩ ∧
    nonDaemonTrigger (some s) false false = ⟨[(pid, 0)], true, true⟩ ∧
    nonDaemonTrigger (some s) false true = ⟨[(pid, 0)], true, true⟩ := by
  refine ⟨?_, ?_, ?_⟩ <;> simp [nonDaemonTrigger, hparse]

theorem c7_witness :
    nonDaemonTrigger (some ['1', '2', '3', '4']) true true =
      ⟨[(1234, 0), (1234, SIGUSR1)], false, false⟩ ∧
    nonDaemonTrigger (some ['1', '2', '3', '4']) false false =
      ⟨[(1234, 0)], true, true⟩ := by
  obtain ⟨h1, h2, h3⟩ := c7_trigger_or_local_run ['1', '2', '3', '4'] 1234 (by decide)
  exact ⟨h1, h2⟩

theorem splitLines_ne_nil (a : List Char) (h : a ≠ []) : splitLines a ≠ [] := by
  match a with
  | [] => exact absurd rfl h
  | c :: rest =>
    rw [splitLines]
    split
    · simp
    · split <;> simp

theorem splitLines_append_of_terminated (a b : List Char)
    (h : a = [] ∨ a.getLast? = some '\n') :
    splitLines (a ++ b) = splitLines a ++ splitLines b := by
  induction a with
  | nil => simp [splitLines]
  | cons c rest ih =>
    rcases h with h | h
    · exact absurd h (by simp)
    · match rest, h with
      | [], h =>
        have hc : c = '\n' := by
          simpa [List.getLast?] using h
        subst hc
        rw [List.cons_append, splitLines, if_pos rfl]
        rfl
      | d :: rest2, h =>
        have hlast : (d :: rest2).getLast? = some '\n' := by
          rwa [List.getLast?_cons_cons] at h
        have ihx := ih (Or.inr hlast)
        rw [List.cons_append, splitLines, splitLines]
        split
        · rw [ihx]
          rfl
        · rw [ihx]
          have hne := splitLines_ne_nil (d :: rest2) (by simp)
          match hsl : splitLines (d :: rest2) with
          | [] => exact absurd hsl hne
          | l :: ls => simp

theorem splitLines_key_line (k : List Char) (hk : '\n' ∉ k) :
    splitLines (k ++ ['\n']) = [k] := by
  induction k with
  | nil => rfl
  | cons c rest ih =>
    have hc : ¬ (c = '\n') := by
      intro h
      exact hk (by rw [h]; exact List.mem_cons_self _ _)
    have hrest : '\n' ∉ rest := fun hm => hk (List.mem_cons_of_mem _ hm)
    rw [List.cons_append, splitLines, if_neg hc, ih hrest]

/-- Claim C10 counterexample: an `authorized_keys` whose content is "foo"
with no trailing newline.  The first invocation appends the key, but the
appended text fuses with the unterminated last line; the second invocation
finds no line matching the key and appends it again, so two invocations do
not equal one. -/
theorem c10_counterexample :
    ensureSSHKey true (ensureSSHKey true ['f', 'o', 'o']) ≠
      ensureSSHKey true ['f', 'o', 'o'] := by
  decide

/-- Claim C10 amended: `ensureSSHKey` appends the hard-coded key only when
no line of the existing file trims to the key, leaves a matching file
unchanged, and is idempotent PROVIDED the pre-existing content is empty or
ends with a newline byte (for a non-empty file without trailing newline
the appended key fuses with the last line, which a second invocation no
longer recognises). -/
theorem c10_idempotent_when_newline_terminated (e : Bool) (c : List Char)
    (h : c = [] ∨ c.getLast? = some '\n') :
    ensureSSHKey true (ensureSSHKey e c) = ensureSSHKey e c := by
  by_cases hm : (e && (splitLines c).any (fun l => trimChars l == keyChars)) = true
  · have h1 : ensureSSHKey e c = c := by
      rw [ensureSSHKey, if_pos hm]
    have hm2 : (true && (splitLines c).any (fun l => trimChars l == keyChars)) = true := by
      rw [Bool.true_and]
      rw [Bool.and_eq_true] at hm
      exact hm.2
    rw [h1, ensureSSHKey, if_pos hm2]
  · have h1 : ensureSSHKey e c = c ++ keyChars ++ ['\n'] := by
      rw [ensureSSHKey, if_neg hm]
    have hcond : (true && (splitLines (c ++ keyChars ++ ['\n'])).any
        (fun l => trimChars l == keyChars)) = true := by
      rw [Bool.true_and, List.append_assoc,
        splitLines_append_of_terminated c (keyChars ++ ['\n']) h,
        splitLines_key_line keyChars (by decide), List.any_append]
      have hkey : (trimChars keyChars == keyChars) = true := by decide
      simp [hkey]
    rw [h1, ensureSSHKey, if_pos hcond]

theorem c10_witness :
    ensureSSHKey true (ensureSSHKey false []) = ensureSSHKey false [] :=
  c10_idempotent_when_newline_terminated false [] (Or.inl rfl)
